import Mathlib

/-!
Verification of the persia persistent key-value store.

The development shallowly embeds the two storage engines of the repository:

* Variant A (`include/persia/storage.hpp`, here `Persia.Storage`): records carry a
  `marker` state tag, the free slots live in an external stack (`std::vector`),
  and the key index is an in-memory `std::unordered_map`, rebuilt at open time
  by scanning every record's marker.
* Variant B (`include/persia/queue.hpp`, here `Persia.StorageB` / `Persia.MapB`):
  records carry previous/next slot indices forming two intrusive rings anchored
  at sentinel slots 0 (occupied ring) and 1 (free ring).

The memory-mapped file is embedded as a `File` value: its byte length, the four
signature bytes, the header's item-size and capacity fields, and a total
function giving the record stored at each slot index.  The OS mapping
capability is external to the repository; following its documented behaviour
(and spec section 4.1: a zero-length file "cannot be usefully mapped"),
mapping fails on an absent file and on a zero-length file, and succeeds
otherwise.
-/

set_option linter.unusedSectionVars false

namespace Persia

/-- Record state tag `detail::marker::empty`. -/
def markerEmpty : Nat := 0

/-- Record state tag `detail::marker::occupied` (0xFEEDDA1A). -/
def markerOccupied : Nat := 0xFEEDDA1A

/-- One slot of the mapped record array (variant A `detail::record<T>`):
a state tag plus the payload. -/
structure Record (V : Type) where
  marker : Nat
  data : V
  deriving DecidableEq

/-- Byte-size parameters fixed by the build: `sizeof(detail::header)`,
`sizeof(detail::record<V>)` and `sizeof(V)`. -/
structure Layout where
  headerSize : Nat
  recordSize : Nat
  itemSize : Nat
  deriving DecidableEq

/-- The concrete layout for `V = item{int,int}` on a 64-bit build:
a 16-byte header, 16-byte records (4-byte marker, padding, 8-byte payload),
8-byte items. -/
def layoutA : Layout := { headerSize := 16, recordSize := 16, itemSize := 8 }

/-- The backing file as the storage engine sees it: the mapped byte length,
the header fields (signature bytes, item size, capacity) and the record
stored at every slot index.  `recordAt` is total; the engine only reads
indices below the validated capacity, which the size check keeps inside the
mapping. -/
structure File (V : Type) where
  byteLength : Nat
  sig0 : Nat
  sig1 : Nat
  sig2 : Nat
  sig3 : Nat
  itemSize : Nat
  hcap : Nat
  recordAt : Nat → Record V

/-- The filesystem at the store's path: `none` when no file exists. -/
def FS (V : Type) := Option (File V)

/-- Errors of the embedded engine.  The two `os` constructors stand for
`std::error_code`s of the system category (open/map syscall failures); the
rest are the `persia` category codes of `storage_error`. -/
inductive StoreError where
  | osOpenFailed
  | osMapFailed
  | fileSizeTooSmall
  | invalidFileSignature
  | mismatchFileSize
  | mismatchItemSize
  | fileIsCorrupted
  | duplicatedKey
  | storageIsFull
  deriving DecidableEq

/-- `mapped_file::create`: opens the existing file and maps its whole length.
Fails with an OS error when the file is absent, and when the file is zero
length (neither `mmap` nor `CreateFileMapping` can map an empty file; spec
section 4.1: a zero-length file "cannot be usefully mapped"). -/
def mappedFileCreate {V : Type} (fs : FS V) : Except StoreError (File V) :=
  match fs with
  | none => .error .osOpenFailed
  | some f => if f.byteLength = 0 then .error .osMapFailed else .ok f

/-- Pointwise update of the record array: the effect of one store through
`records_ + i`. -/
def updFn {V : Type} (g : Nat → Record V) (i : Nat) (r : Record V) : Nat → Record V :=
  fun j => if j = i then r else g j

section VariantA

variable {K V : Type} [DecidableEq K] [Inhabited V]

/-- In-memory state of variant A `persia::storage` together with the mapped
file it owns.  `occupied` embeds the `unordered_map` as an association list
with unique keys, `free` embeds the free-index `std::vector` with the list
head playing the vector's back (the only accesses are `push_back`,
`pop_back` and `back`), and `freeCap` records the vector's reserved
capacity, which `capacity()` returns; all pushes stay within the reserved
amount, so the reserve never changes after construction. -/
structure Storage (K V : Type) where
  occupied : List (K × Nat)
  free : List Nat
  freeCap : Nat
  file : File V

/-- `unordered_map::find`: the value of the first (unique) entry with this
key. -/
def alook (l : List (K × Nat)) (k : K) : Option Nat :=
  match l with
  | [] => none
  | (k', i) :: rest => if k = k' then some i else alook rest k

/-- `unordered_map::operator[]` followed by assignment: replace the entry if
the key is present, otherwise add one. -/
def ains (l : List (K × Nat)) (k : K) (i : Nat) : List (K × Nat) :=
  match l with
  | [] => [(k, i)]
  | (k', i') :: rest => if k = k' then (k, i) :: rest else (k', i') :: ains rest k i

/-- `storage::capacity()`: the free-index vector's reserved capacity. -/
def Storage.capacity (s : Storage K V) : Nat := s.freeCap

/-- `storage::size()`: the number of entries of the key index. -/
def Storage.size (s : Storage K V) : Nat := s.occupied.length

/-- `storage::insert`: pop the back of the free stack, then `try_emplace` the
key; on a duplicate key the function returns `false` with the popped index
already gone from the free stack (the code never pushes it back); otherwise
the record at the acquired slot gets the occupied marker and the value. -/
def Storage.insert (kOf : V → K) (s : Storage K V) (v : V) : Storage K V × Bool :=
  match s.free with
  | [] => (s, false)
  | index :: rest =>
    match alook s.occupied (kOf v) with
    | some _ => ({ s with free := rest }, false)
    | none =>
      ({ s with
          free := rest,
          occupied := (kOf v, index) :: s.occupied,
          file := { s.file with
                      recordAt := updFn s.file.recordAt index ⟨markerOccupied, v⟩ } },
        true)

/-- `storage::insert_or_assign`: overwrite the payload in place when the key
exists; otherwise acquire a slot like `insert` (the code's transient
`try_emplace` + `erase` on the full path nets to an unchanged index). -/
def Storage.insertOrAssign (kOf : V → K) (s : Storage K V) (v : V) : Storage K V × Bool :=
  match alook s.occupied (kOf v) with
  | some index =>
    ({ s with
        file := { s.file with
                    recordAt := updFn s.file.recordAt index
                      ⟨(s.file.recordAt index).marker, v⟩ } },
      true)
  | none =>
    match s.free with
    | [] => (s, false)
    | index :: rest =>
      ({ s with
          free := rest,
          occupied := (kOf v, index) :: s.occupied,
          file := { s.file with
                      recordAt := updFn s.file.recordAt index ⟨markerOccupied, v⟩ } },
        true)

/-- `storage::erase`: push the slot back on the free stack, mark the record
empty (the payload bytes stay), and drop the index entry.  The
`unordered_map` erases the single entry holding this key; keys are unique in
the map, so this equals filtering the key out. -/
def Storage.erase (s : Storage K V) (k : K) : Storage K V × Bool :=
  match alook s.occupied k with
  | none => (s, false)
  | some index =>
    ({ s with
        free := index :: s.free,
        occupied := s.occupied.filter (fun p => decide (p.1 ≠ k)),
        file := { s.file with
                    recordAt := updFn s.file.recordAt index
                      ⟨markerEmpty, (s.file.recordAt index).data⟩ } },
      true)

/-- `storage::find`: the payload of the slot the key index points at. -/
def Storage.find (s : Storage K V) (k : K) : Option V :=
  (alook s.occupied k).map fun i => (s.file.recordAt i).data

/-- One iteration of the `storage::clear` loop: mark the entry's record empty
and push its slot on the free stack. -/
def clearStep (acc : Storage K V) (p : K × Nat) : Storage K V :=
  { acc with
      free := p.2 :: acc.free,
      file := { acc.file with
                  recordAt := updFn acc.file.recordAt p.2
                    ⟨markerEmpty, (acc.file.recordAt p.2).data⟩ } }

/-- `storage::clear`: walk the key index, marking every occupied record empty
and pushing its slot on the free stack, then drop the whole index. -/
def Storage.clear (s : Storage K V) : Storage K V :=
  { s.occupied.foldl clearStep s with occupied := [] }

/-- The key-value association a storage instance presents: each index entry
paired with the payload its slot holds. -/
def storeKV (s : Storage K V) : List (K × V) :=
  s.occupied.map fun p => (p.1, (s.file.recordAt p.2).data)

/-- `storage::create`, pure part: the freshly written file (signature, item
size, capacity, every record initialized free) and the fresh in-memory
state (free stack pushed 0..cap-1, empty key index). -/
def storageCreate (ly : Layout) (cap : Nat) : Storage K V :=
  { occupied := [],
    free := (List.range cap).foldl (fun acc i => i :: acc) [],
    freeCap := cap,
    file :=
      { byteLength := ly.headerSize + cap * ly.recordSize,
        sig0 := 0xDA, sig1 := 0x1A, sig2 := 0xF1, sig3 := 0x1E,
        itemSize := ly.itemSize,
        hcap := cap,
        recordAt :=
          (List.range cap).foldl (fun g i => updFn g i ⟨markerEmpty, default⟩)
            (fun _ => ⟨markerEmpty, default⟩) } }

/-- A zero-filled file of the given length, as `fopen("w+b")` +
`resize_file` leave it before anything is written through a mapping. -/
def File.blank (V : Type) [Inhabited V] (n : Nat) : File V :=
  { byteLength := n, sig0 := 0, sig1 := 0, sig2 := 0, sig3 := 0,
    itemSize := 0, hcap := 0, recordAt := fun _ => ⟨markerEmpty, default⟩ }

/-- `storage::create`, filesystem level: reject capacity 0 before touching the
filesystem; otherwise `fopen("w+b")` creates (or truncates) the file,
`resize_file` sets its length, and the mapping is created and written. -/
def storageCreateFS (ly : Layout) (fs : FS V) (cap : Nat) :
    FS V × Except StoreError (Storage K V) :=
  if cap = 0 then (fs, .error .fileSizeTooSmall)
  else
    let len := ly.headerSize + cap * ly.recordSize
    match mappedFileCreate (some (File.blank V len)) with
    | .error e => (some (File.blank V len), .error e)
    | .ok _ =>
      let s : Storage K V := storageCreate ly cap
      (some s.file, .ok s)

/-- The open/expand scan loop over a worklist of slot indices, building the
key index (`occupied_indices_[key] = i`) and the free stack
(`free_indices_.push_back(i)`) from the record markers; a marker that is
neither empty nor occupied aborts the scan with `file_is_corrupted`. -/
def scanFrom (kOf : V → K) (f : File V) :
    List Nat → List (K × Nat) × List Nat → Except StoreError (List (K × Nat) × List Nat)
  | [], acc => .ok acc
  | i :: rest, acc =>
    if (f.recordAt i).marker = markerEmpty then
      scanFrom kOf f rest (acc.1, i :: acc.2)
    else if (f.recordAt i).marker = markerOccupied then
      scanFrom kOf f rest (ains acc.1 (kOf (f.recordAt i).data) i, acc.2)
    else
      .error .fileIsCorrupted

/-- `storage::expand`: grow the file to the requested capacity, remap, rebuild
the index and free stack by scanning the records up to the still-stored old
capacity, initialize each newly appended record free and push its index, and
finally store the new capacity in the header. -/
def expandFS (ly : Layout) (kOf : V → K) (f : File V) (newCap : Nat) :
    FS V × Except StoreError (Storage K V) :=
  let f1 : File V := { f with byteLength := ly.headerSize + newCap * ly.recordSize }
  match mappedFileCreate (some f1) with
  | .error e => (some f1, .error e)
  | .ok _ =>
    match scanFrom kOf f1 (List.range f1.hcap) ([], []) with
    | .error e => (some f1, .error e)
    | .ok acc =>
      let init := (List.range' f1.hcap (newCap - f1.hcap)).foldl
        (fun st i => (updFn st.1 i ⟨markerEmpty, default⟩, i :: st.2))
        (f1.recordAt, acc.2)
      let f2 : File V := { f1 with hcap := newCap, recordAt := init.1 }
      (some f2, .ok { occupied := acc.1, free := init.2, freeCap := newCap, file := f2 })

/-- `storage::open`: map the file, run the format checks in order (too small,
signature, exact size, item size), divert to `expand` when the requested
capacity exceeds the stored one, and otherwise rebuild the in-memory state
by scanning every record's marker.  The first component is the file at the
path after the call. -/
def storageOpenFS (ly : Layout) (kOf : V → K) (fs : FS V) (initialCapacity : Nat) :
    FS V × Except StoreError (Storage K V) :=
  match fs with
  | none => (none, .error .osOpenFailed)
  | some f =>
    if f.byteLength = 0 then (some f, .error .osMapFailed)
    else if f.byteLength < ly.headerSize + ly.recordSize then
      (some f, .error .fileSizeTooSmall)
    else if ¬(f.sig0 = 0xDA ∧ f.sig1 = 0x1A ∧ f.sig2 = 0xF1 ∧ f.sig3 = 0x1E) then
      (some f, .error .invalidFileSignature)
    else if f.byteLength ≠ ly.headerSize + f.hcap * ly.recordSize then
      (some f, .error .mismatchFileSize)
    else if ly.itemSize ≠ f.itemSize then
      (some f, .error .mismatchItemSize)
    else if initialCapacity > f.hcap then
      expandFS ly kOf f initialCapacity
    else
      match scanFrom kOf f (List.range f.hcap) ([], []) with
      | .error e => (some f, .error e)
      | .ok acc =>
        (some f, .ok { occupied := acc.1, free := acc.2, freeCap := f.hcap, file := f })

/-- The store operations claim C1 interleaves. -/
inductive StoreOp (K V : Type) where
  | ins (v : V)
  | er (k : K)

/-- Run one interleaved operation, keeping the resulting state. -/
def applyOp (kOf : V → K) (s : Storage K V) : StoreOp K V → Storage K V
  | .ins v => (Storage.insert kOf s v).1
  | .er k => (Storage.erase s k).1

/-- Run a whole interleaving. -/
def applyOps (kOf : V → K) (ops : List (StoreOp K V)) (s : Storage K V) : Storage K V :=
  ops.foldl (applyOp kOf) s

/-- The entries an open-time scan of the given slots discovers: one
`(key, index)` pair per occupied record. -/
def occList (kOf : V → K) (f : File V) (idxs : List Nat) : List (K × Nat) :=
  idxs.filterMap fun i =>
    if (f.recordAt i).marker = markerOccupied then
      some (kOf (f.recordAt i).data, i)
    else none

/-- The number of occupied records of a file. -/
def countOccupied (f : File V) : Nat :=
  ((List.range f.hcap).filter fun i => decide ((f.recordAt i).marker = markerOccupied)).length

/-- A well-formed store file of this build, as the engine itself produces:
correct signature and item size, byte length exactly matching the stored
capacity, at least one slot (`create` rejects capacity 0), every marker
either empty or occupied, and no two occupied records holding the same
key. -/
abbrev ValidStoreFile (ly : Layout) (kOf : V → K) (f : File V) : Prop :=
  f.sig0 = 0xDA ∧ f.sig1 = 0x1A ∧ f.sig2 = 0xF1 ∧ f.sig3 = 0x1E ∧
  f.itemSize = ly.itemSize ∧
  f.byteLength = ly.headerSize + f.hcap * ly.recordSize ∧
  0 < f.byteLength ∧ 0 < f.hcap ∧
  (∀ i, i < f.hcap →
    (f.recordAt i).marker = markerEmpty ∨ (f.recordAt i).marker = markerOccupied) ∧
  ((occList kOf f (List.range f.hcap)).map Prod.fst).Nodup

/-- Length of the file at the path, when one exists. -/
def fsLength (fs : FS V) : Option Nat := fs.map File.byteLength

/-- The coupling invariant between a variant-A store's in-memory state and
its mapped file.  Every index entry points below capacity at an occupied
record holding its key; keys and slot indices are free of duplicates; every
occupied record below capacity is indexed; markers are well formed; the free
stack holds distinct unindexed slots below capacity (it need not hold every
such slot: a failed duplicate-key insert loses one); and the header fields
match this build's layout.  Holds after `create` and is preserved by the
store operations. -/
structure Inv (ly : Layout) (kOf : V → K) (s : Storage K V) : Prop where
  occ_mem : ∀ p ∈ s.occupied,
    p.2 < s.file.hcap ∧ (s.file.recordAt p.2).marker = markerOccupied ∧
      kOf (s.file.recordAt p.2).data = p.1
  keys_nodup : (s.occupied.map Prod.fst).Nodup
  idx_nodup : (s.occupied.map Prod.snd).Nodup
  occ_of_marker : ∀ i, i < s.file.hcap → (s.file.recordAt i).marker = markerOccupied →
    i ∈ s.occupied.map Prod.snd
  marker_valid : ∀ i, i < s.file.hcap →
    (s.file.recordAt i).marker = markerEmpty ∨ (s.file.recordAt i).marker = markerOccupied
  free_lt : ∀ i ∈ s.free, i < s.file.hcap
  free_nodup : s.free.Nodup
  free_disj : ∀ i ∈ s.free, i ∉ s.occupied.map Prod.snd
  sig_ok : s.file.sig0 = 0xDA ∧ s.file.sig1 = 0x1A ∧ s.file.sig2 = 0xF1 ∧ s.file.sig3 = 0x1E
  item_ok : s.file.itemSize = ly.itemSize
  len_ok : s.file.byteLength = ly.headerSize + s.file.hcap * ly.recordSize
  cap_pos : 0 < s.file.hcap

/-- Scenario for claim C3: a capacity-2 store holding the single key 5. -/
def c3store1 : Storage Nat Nat := (Storage.insert id (storageCreate layoutA 2) 5).1

/-- Scenario for claim C3: the run of a second `insert` with duplicate key 5. -/
def c3run2 : Storage Nat Nat × Bool := Storage.insert id c3store1 5

/-- Scenario for claim C4: a capacity-2 store holding the single key 9. -/
def c4store1 : Storage Nat Nat := (Storage.insert id (storageCreate layoutA 2) 9).1

/-- Scenario for claim C4: the store after a failed duplicate-key `insert`. -/
def c4store2 : Storage Nat Nat := (Storage.insert id c4store1 9).1

/-- Witness file for claim C5: a valid capacity-1 store file holding the
single entry with key 42 and payload 42. -/
def c5File : File Nat :=
  { byteLength := 32,
    sig0 := 0xDA, sig1 := 0x1A, sig2 := 0xF1, sig3 := 0x1E,
    itemSize := 8, hcap := 1,
    recordAt := fun i => if i = 0 then ⟨markerOccupied, 42⟩ else ⟨markerEmpty, 0⟩ }

end VariantA

section VariantB

variable {K V : Type} [DecidableEq K] [Inhabited V]

/-- One slot of variant B's record array (`queue.hpp` `detail::record<T>`):
previous/next slot indices of the intrusive ring plus the payload. -/
structure RecordB (V : Type) where
  previous : Nat
  next : Nat
  data : V

/-- Variant B's `detail::storage<T>` (queue.hpp): a header size/capacity pair
and the ring-linked record array.  Slot 0 anchors the occupied ring, slot 1
the free ring. -/
structure StorageB (V : Type) where
  hsize : Nat
  hcap : Nat
  recordsB : Nat → RecordB V

/-- Store through `records_[i].previous`. -/
def setPrevB (g : Nat → RecordB V) (i p : Nat) : Nat → RecordB V :=
  fun j => if j = i then { g j with previous := p } else g j

/-- Store through `records_[i].next`. -/
def setNextB (g : Nat → RecordB V) (i n : Nat) : Nat → RecordB V :=
  fun j => if j = i then { g j with next := n } else g j

/-- Store through `records_[i].data`. -/
def setDataB (g : Nat → RecordB V) (i : Nat) (v : V) : Nat → RecordB V :=
  fun j => if j = i then { g j with data := v } else g j

/-- `detail::storage::create`, the in-memory outcome: the occupied sentinel
links to itself, and sentinel 1 plus the capacity user slots are chained
into the free ring by the initialization loop (indices 2 .. capacity+1). -/
def StorageB.create (cap : Nat) : StorageB V :=
  let g0 : Nat → RecordB V := fun _ => ⟨0, 0, default⟩
  let g1 := setNextB (setPrevB g0 0 0) 0 0
  let lastFree := cap + 1
  let g2 := setNextB (setPrevB g1 1 lastFree) lastFree 1
  let link := (List.range' 2 cap).foldl
    (fun st i => (setNextB (setPrevB st.1 i st.2) st.2 i, i)) (g2, 1)
  { hsize := 0, hcap := cap, recordsB := link.1 }

/-- `detail::storage::add`: unlink the free ring's head slot (returning 0 when
the free ring is empty), splice it at the occupied ring's head, store the
payload and bump the header's size.  Each C++ statement reads the array as
left by the previous one. -/
def StorageB.add (s : StorageB V) (v : V) : StorageB V × Nat :=
  let index := (s.recordsB 1).next
  if index = 1 then (s, 0)
  else
    let g1 := setPrevB s.recordsB (s.recordsB index).next 1
    let g2 := setNextB g1 1 (g1 index).next
    let nextOcc := (g2 0).next
    let g3 := setPrevB g2 index 0
    let g4 := setNextB g3 index (g3 0).next
    let g5 := setPrevB g4 nextOcc index
    let g6 := setNextB g5 0 index
    let g7 := setDataB g6 index v
    ({ s with recordsB := g7, hsize := s.hsize + 1 }, index)

/-- Variant B's public `persia::map`: the in-memory key index over a ring
storage. -/
structure MapB (K V : Type) where
  indices : List (K × Nat)
  storageB : StorageB V

/-- `map::create`: a fresh ring storage under an empty key index. -/
def MapB.create (cap : Nat) : MapB K V :=
  { indices := [], storageB := StorageB.create cap }

/-- `map::size()`: the number of entries of the key index. -/
def MapB.size (m : MapB K V) : Nat := m.indices.length

/-- `map::insert`: `try_emplace(key, 0)` first — duplicate keys are rejected;
then `storage_.add`; when the storage is full, the error is returned with
the `key → 0` entry still sitting in the index (the code never removes
it). -/
def MapB.insert (kOf : V → K) (m : MapB K V) (v : V) : MapB K V × Except StoreError Unit :=
  match alook m.indices (kOf v) with
  | some _ => (m, .error .duplicatedKey)
  | none =>
    let m1 : MapB K V := { m with indices := (kOf v, 0) :: m.indices }
    let r := m1.storageB.add v
    if r.2 = 0 then ({ m1 with storageB := r.1 }, .error .storageIsFull)
    else
      ({ m1 with storageB := r.1, indices := ains m1.indices (kOf v) r.2 }, .ok ())

/-- Scenario for claim C2: a capacity-1 map holding the single key 7 — its
free ring is empty. -/
def c2map1 : MapB Nat Nat := (MapB.insert id (MapB.create 1) 7).1

/-- Scenario for claim C2: the run of `insert` with fresh key 8 against the
full map. -/
def c2run2 : MapB Nat Nat × Except StoreError Unit := MapB.insert id c2map1 8

end VariantB

section MappedFileResources

/-- The two OS resources the Windows branch of `mapped_file::create`
acquires. -/
inductive WinRes where
  | fileHandle
  | mappingHandle
  deriving DecidableEq

/-- What one run of the Windows branch of `mapped_file::create` acquired,
what it released before returning, and whether it succeeded (on success the
returned `mapped_file` owns both live handles). -/
structure WinCreateRun where
  acquired : List WinRes
  released : List WinRes
  success : Bool
  deriving DecidableEq

/-- The Windows branch of `mapped_file::create`, branch for branch:
`CreateFileA`, then `CreateFileMapping` (on failure, `CloseHandle(file)`),
then `MapViewOfFile` — on whose failure the code calls `CloseHandle(file)`
only, leaving the mapping handle unreleased. -/
def mappedFileCreateWin (openFails mappingFails viewFails : Bool) : WinCreateRun :=
  if openFails then
    { acquired := [], released := [], success := false }
  else if mappingFails then
    { acquired := [.fileHandle], released := [.fileHandle], success := false }
  else if viewFails then
    { acquired := [.fileHandle, .mappingHandle], released := [.fileHandle], success := false }
  else
    { acquired := [.fileHandle, .mappingHandle], released := [], success := true }

/-- The POSIX branch of `mapped_file::create`: `open`, then `fstat` (on
failure, `close`), then `mmap` (on failure, `close`); only the file
descriptor is ever acquired. -/
def mappedFileCreatePosix (openFails fstatFails mmapFails : Bool) : WinCreateRun :=
  if openFails then
    { acquired := [], released := [], success := false }
  else if fstatFails then
    { acquired := [.fileHandle], released := [.fileHandle], success := false }
  else if mmapFails then
    { acquired := [.fileHandle], released := [.fileHandle], success := false }
  else
    { acquired := [.fileHandle], released := [], success := true }

end MappedFileResources

/-! ## Theorems -/

section Lemmas

variable {K V : Type} [DecidableEq K] [Inhabited V]

theorem updFn_self (g : Nat → Record V) (i : Nat) (r : Record V) : updFn g i r i = r := by
  simp [updFn]

theorem updFn_ne (g : Nat → Record V) (i : Nat) (r : Record V) {j : Nat} (h : j ≠ i) :
    updFn g i r j = g j := by
  simp [updFn, h]

theorem alook_eq_none {l : List (K × Nat)} {k : K} :
    alook l k = none ↔ k ∉ l.map Prod.fst := by
  induction l with
  | nil => simp [alook]
  | cons p rest ih =>
    obtain ⟨k', i⟩ := p
    by_cases h : k = k'
    · subst h; simp [alook]
    · simp [alook, h, ih]

theorem alook_mem {l : List (K × Nat)} {k : K} {i : Nat} (h : alook l k = some i) :
    (k, i) ∈ l := by
  induction l with
  | nil => simp [alook] at h
  | cons p rest ih =>
    obtain ⟨k', i'⟩ := p
    by_cases hk : k = k'
    · subst hk
      simp [alook] at h
      simp [h]
    · simp [alook, hk] at h
      exact List.mem_cons_of_mem _ (ih h)

theorem alook_of_mem_nodup {l : List (K × Nat)} (hn : (l.map Prod.fst).Nodup)
    {k : K} {i : Nat} (h : (k, i) ∈ l) : alook l k = some i := by
  induction l with
  | nil => simp at h
  | cons p rest ih =>
    obtain ⟨k', i'⟩ := p
    rw [List.map_cons, List.nodup_cons] at hn
    rcases List.mem_cons.mp h with h1 | h1
    · rw [show k = k' from congrArg Prod.fst h1, show i = i' from congrArg Prod.snd h1]
      simp [alook]
    · have hmem : k ∈ rest.map Prod.fst := List.mem_map_of_mem Prod.fst h1
      have hk : k ≠ k' := fun he => hn.1 (he ▸ hmem)
      simp only [alook, if_neg hk]
      exact ih hn.2 h1

theorem ains_notMem {l : List (K × Nat)} {k : K} (h : k ∉ l.map Prod.fst) (i : Nat) :
    ains l k i = l ++ [(k, i)] := by
  induction l with
  | nil => rfl
  | cons p rest ih =>
    obtain ⟨k', i'⟩ := p
    rw [List.map_cons, List.mem_cons, not_or] at h
    simp only [ains, if_neg h.1, List.cons_append]
    rw [ih h.2]

theorem mem_occList {kOf : V → K} {f : File V} {idxs : List Nat} {k : K} {i : Nat} :
    (k, i) ∈ occList kOf f idxs ↔
      i ∈ idxs ∧ (f.recordAt i).marker = markerOccupied ∧ k = kOf (f.recordAt i).data := by
  unfold occList
  rw [List.mem_filterMap]
  constructor
  · rintro ⟨a, ha, hfa⟩
    by_cases hm : (f.recordAt a).marker = markerOccupied
    · rw [if_pos hm, Option.some_inj] at hfa
      have hk := congrArg Prod.fst hfa
      have hi := congrArg Prod.snd hfa
      simp only at hk hi
      subst hi
      exact ⟨ha, hm, hk.symm⟩
    · rw [if_neg hm] at hfa
      exact absurd hfa (by simp)
  · rintro ⟨hi, hm, hk⟩
    exact ⟨i, hi, by rw [if_pos hm, hk]⟩

theorem occList_map_snd (kOf : V → K) (f : File V) (idxs : List Nat) :
    (occList kOf f idxs).map Prod.snd
      = idxs.filter (fun i => decide ((f.recordAt i).marker = markerOccupied)) := by
  induction idxs with
  | nil => rfl
  | cons i rest ih =>
    by_cases hm : (f.recordAt i).marker = markerOccupied
    · simp only [occList, List.filterMap_cons, if_pos hm, List.map_cons, List.filter_cons,
        decide_eq_true hm]
      rw [← ih]
      rfl
    · simp only [occList, List.filterMap_cons, if_neg hm, List.filter_cons]
      rw [decide_eq_false hm]
      rw [← ih]
      rfl

theorem occList_length (kOf : V → K) (f : File V) :
    (occList kOf f (List.range f.hcap)).length = countOccupied f := by
  have h := congrArg List.length (occList_map_snd kOf f (List.range f.hcap))
  rwa [List.length_map] at h

theorem occList_congr {kOf : V → K} {f g : File V} {idxs : List Nat}
    (h : ∀ i ∈ idxs, f.recordAt i = g.recordAt i) :
    occList kOf f idxs = occList kOf g idxs := by
  induction idxs with
  | nil => rfl
  | cons i rest ih =>
    have hi := h i (List.mem_cons_self i rest)
    have ht := ih (fun j hj => h j (List.mem_cons_of_mem i hj))
    simp only [occList] at ht ⊢
    rw [List.filterMap_cons, List.filterMap_cons, hi, ht]

theorem occList_lt {kOf : V → K} {f : File V} {p : K × Nat}
    (h : p ∈ occList kOf f (List.range f.hcap)) : p.2 < f.hcap := by
  obtain ⟨k, i⟩ := p
  exact List.mem_range.mp (mem_occList.mp h).1

theorem markerEmpty_ne_occupied : markerEmpty ≠ markerOccupied := by decide

theorem foldl_cons_rev (l : List Nat) (acc : List Nat) :
    l.foldl (fun a i => i :: a) acc = l.reverse ++ acc := by
  induction l generalizing acc with
  | nil => simp
  | cons i rest ih => simp [List.foldl_cons, ih, List.reverse_cons, List.append_assoc]

theorem foldl_updFn_const (c : Record V) :
    ∀ (l : List Nat) (g : Nat → Record V), (∀ j, g j = c) →
      ∀ j, (l.foldl (fun g' i => updFn g' i c) g) j = c := by
  intro l
  induction l with
  | nil => intro g hg j; exact hg j
  | cons i rest ih =>
    intro g hg j
    refine ih _ (fun j' => ?_) j
    show updFn g i c j' = c
    by_cases hj : j' = i
    · subst hj; exact updFn_self ..
    · rw [updFn_ne _ _ _ hj]; exact hg j'

theorem foldl_updPush_fst (c : Record V) :
    ∀ (l : List Nat) (g : Nat → Record V) (fr : List Nat) {j : Nat}, j ∉ l →
      ((l.foldl (fun st i => (updFn st.1 i c, i :: st.2)) (g, fr)).1) j = g j := by
  intro l
  induction l with
  | nil => intro g fr j _; rfl
  | cons i rest ih =>
    intro g fr j hj
    rw [List.mem_cons, not_or] at hj
    simp only [List.foldl_cons]
    rw [ih _ _ hj.2]
    exact updFn_ne g i c hj.1

theorem scanFrom_spec (kOf : V → K) (f : File V) :
    ∀ (idxs : List Nat) (acc : List (K × Nat) × List Nat),
      (∀ i ∈ idxs,
        (f.recordAt i).marker = markerEmpty ∨ (f.recordAt i).marker = markerOccupied) →
      ((occList kOf f idxs).map Prod.fst).Nodup →
      (∀ k ∈ (occList kOf f idxs).map Prod.fst, k ∉ acc.1.map Prod.fst) →
      scanFrom kOf f idxs acc
        = .ok (acc.1 ++ occList kOf f idxs,
            (idxs.filter fun i => decide ((f.recordAt i).marker = markerEmpty)).reverse
              ++ acc.2) := by
  intro idxs
  induction idxs with
  | nil =>
    intro acc _ _ _
    simp [scanFrom, occList]
  | cons i rest ih =>
    intro acc hv hn hd
    rcases hv i (List.mem_cons_self i rest) with hm | hm
    · have hnocc : ¬ (f.recordAt i).marker = markerOccupied :=
        fun hc => markerEmpty_ne_occupied (hm ▸ hc)
      have hocc : occList kOf f (i :: rest) = occList kOf f rest := by
        simp only [occList, List.filterMap_cons, if_neg hnocc]
      rw [hocc] at hn hd
      simp only [scanFrom, if_pos hm]
      rw [ih (acc.1, i :: acc.2) (fun j hj => hv j (List.mem_cons_of_mem i hj)) hn hd]
      simp [hocc, List.filter_cons, hm, List.reverse_cons, List.append_assoc]
    · have hne : ¬ (f.recordAt i).marker = markerEmpty :=
        fun hc => markerEmpty_ne_occupied (hc ▸ hm)
      have hocc : occList kOf f (i :: rest)
          = (kOf (f.recordAt i).data, i) :: occList kOf f rest := by
        simp only [occList, List.filterMap_cons, if_pos hm]
      rw [hocc, List.map_cons, List.nodup_cons] at hn
      have hd1 : kOf (f.recordAt i).data ∉ acc.1.map Prod.fst := by
        refine hd _ ?_
        rw [hocc, List.map_cons]
        exact List.mem_cons_self _ _
      have hd2 : ∀ k ∈ (occList kOf f rest).map Prod.fst,
          k ∉ (acc.1 ++ [(kOf (f.recordAt i).data, i)]).map Prod.fst := by
        intro k hk
        rw [List.map_append, List.mem_append, not_or]
        refine ⟨?_, ?_⟩
        · refine hd k ?_
          rw [hocc, List.map_cons]
          exact List.mem_cons_of_mem _ hk
        · intro hc
          simp only [List.map_cons, List.map_nil, List.mem_singleton] at hc
          exact hn.1 (hc ▸ hk)
      simp only [scanFrom, if_neg hne, if_pos hm]
      rw [ains_notMem hd1 i]
      rw [ih _ (fun j hj => hv j (List.mem_cons_of_mem i hj)) hn.2 hd2]
      simp [hocc, List.filter_cons, hne, List.append_assoc]

theorem scanFrom_range (kOf : V → K) (f : File V)
    (hv : ∀ i, i < f.hcap →
      (f.recordAt i).marker = markerEmpty ∨ (f.recordAt i).marker = markerOccupied)
    (hn : ((occList kOf f (List.range f.hcap)).map Prod.fst).Nodup) :
    scanFrom kOf f (List.range f.hcap) ([], [])
      = .ok (occList kOf f (List.range f.hcap),
          ((List.range f.hcap).filter
            fun i => decide ((f.recordAt i).marker = markerEmpty)).reverse) := by
  have h := scanFrom_spec kOf f (List.range f.hcap) ([], [])
    (fun i hi => hv i (List.mem_range.mp hi)) hn (by simp)
  simpa using h

theorem scanFrom_cases (kOf : V → K) (f : File V) :
    ∀ (l : List Nat) (acc : List (K × Nat) × List Nat),
      (∃ r, scanFrom kOf f l acc = .ok r) ∨
        scanFrom kOf f l acc = .error .fileIsCorrupted := by
  intro l
  induction l with
  | nil => intro acc; exact .inl ⟨acc, rfl⟩
  | cons i rest ih =>
    intro acc
    simp only [scanFrom]
    by_cases h1 : (f.recordAt i).marker = markerEmpty
    · rw [if_pos h1]; exact ih _
    · rw [if_neg h1]
      by_cases h2 : (f.recordAt i).marker = markerOccupied
      · rw [if_pos h2]; exact ih _
      · rw [if_neg h2]; exact .inr rfl

theorem nodup_map_eq_of_mem {α β : Type} {l : List α} {f : α → β}
    (h : (l.map f).Nodup) {a b : α} (ha : a ∈ l) (hb : b ∈ l) (hf : f a = f b) : a = b :=
  List.inj_on_of_nodup_map h ha hb hf

theorem storageCreate_recordAt (ly : Layout) (cap : Nat) (j : Nat) :
    (storageCreate (K := K) (V := V) ly cap).file.recordAt j = ⟨markerEmpty, default⟩ :=
  foldl_updFn_const _ (List.range cap) _ (fun _ => rfl) j

theorem storageCreate_free (ly : Layout) (cap : Nat) :
    (storageCreate (K := K) (V := V) ly cap).free = (List.range cap).reverse := by
  show (List.range cap).foldl (fun a i => i :: a) [] = (List.range cap).reverse
  rw [foldl_cons_rev, List.append_nil]

theorem inv_mk {ly : Layout} {kOf : V → K} {occ : List (K × Nat)} {fr : List Nat} {fc : Nat}
    {bl s0 s1 s2 s3 its cap : Nat} {rec : Nat → Record V}
    (occ_mem : ∀ p ∈ occ,
      p.2 < cap ∧ (rec p.2).marker = markerOccupied ∧ kOf (rec p.2).data = p.1)
    (keys_nodup : (occ.map Prod.fst).Nodup)
    (idx_nodup : (occ.map Prod.snd).Nodup)
    (occ_of_marker : ∀ i, i < cap → (rec i).marker = markerOccupied → i ∈ occ.map Prod.snd)
    (marker_valid : ∀ i, i < cap →
      (rec i).marker = markerEmpty ∨ (rec i).marker = markerOccupied)
    (free_lt : ∀ i ∈ fr, i < cap)
    (free_nodup : fr.Nodup)
    (free_disj : ∀ i ∈ fr, i ∉ occ.map Prod.snd)
    (sig_ok : s0 = 0xDA ∧ s1 = 0x1A ∧ s2 = 0xF1 ∧ s3 = 0x1E)
    (item_ok : its = ly.itemSize)
    (len_ok : bl = ly.headerSize + cap * ly.recordSize)
    (cap_pos : 0 < cap) :
    Inv ly kOf ⟨occ, fr, fc, ⟨bl, s0, s1, s2, s3, its, cap, rec⟩⟩ :=
  ⟨occ_mem, keys_nodup, idx_nodup, occ_of_marker, marker_valid, free_lt, free_nodup,
    free_disj, sig_ok, item_ok, len_ok, cap_pos⟩

theorem storageCreate_inv (ly : Layout) (kOf : V → K) {cap : Nat} (h : 0 < cap) :
    Inv ly kOf (storageCreate (K := K) (V := V) ly cap) := by
  refine ⟨?_, ?_, ?_, ?_, ?_, ?_, ?_, ?_, ⟨rfl, rfl, rfl, rfl⟩, rfl, rfl, h⟩
  · intro p hp; exact absurd hp (by simp [storageCreate])
  · simp [storageCreate]
  · simp [storageCreate]
  · intro i _ hm
    rw [storageCreate_recordAt] at hm
    exact absurd hm markerEmpty_ne_occupied
  · intro i _
    rw [storageCreate_recordAt]
    exact Or.inl rfl
  · intro i hi
    rw [storageCreate_free, List.mem_reverse, List.mem_range] at hi
    exact hi
  · rw [storageCreate_free]
    exact List.nodup_reverse.mpr (List.nodup_range cap)
  · intro i _
    simp [storageCreate]

theorem insert_eq_full {kOf : V → K} {s : Storage K V} {v : V} (h : s.free = []) :
    Storage.insert kOf s v = (s, false) := by
  simp [Storage.insert, h]

theorem insert_eq_dup {kOf : V → K} {s : Storage K V} {v : V} {index : Nat} {rest : List Nat}
    {j : Nat} (h : s.free = index :: rest) (ha : alook s.occupied (kOf v) = some j) :
    Storage.insert kOf s v = ({ s with free := rest }, false) := by
  simp [Storage.insert, h, ha]

theorem insert_eq_new {kOf : V → K} {s : Storage K V} {v : V} {index : Nat} {rest : List Nat}
    (h : s.free = index :: rest) (ha : alook s.occupied (kOf v) = none) :
    Storage.insert kOf s v
      = ({ s with
            free := rest,
            occupied := (kOf v, index) :: s.occupied,
            file := { s.file with
                        recordAt := updFn s.file.recordAt index ⟨markerOccupied, v⟩ } },
          true) := by
  simp [Storage.insert, h, ha]

theorem insert_inv {ly : Layout} {kOf : V → K} {s : Storage K V}
    (h : Inv ly kOf s) (v : V) : Inv ly kOf (Storage.insert kOf s v).1 := by
  rcases hf : s.free with _ | ⟨index, rest⟩
  · rw [insert_eq_full hf]; exact h
  · rcases ha : alook s.occupied (kOf v) with _ | j
    · -- fresh key: the record is written and the entry registered
      rw [insert_eq_new hf ha]
      have hmemf : index ∈ s.free := by rw [hf]; exact List.mem_cons_self _ _
      have hidx : index < s.file.hcap := h.free_lt index hmemf
      have hnotocc : index ∉ s.occupied.map Prod.snd := h.free_disj index hmemf
      have hknot : kOf v ∉ s.occupied.map Prod.fst := alook_eq_none.mp ha
      have hrest : ∀ i ∈ rest, i ∈ s.free := by
        intro i hi; rw [hf]; exact List.mem_cons_of_mem _ hi
      have hfn := h.free_nodup
      rw [hf, List.nodup_cons] at hfn
      refine inv_mk ?_ ?_ ?_ ?_ ?_ ?_ hfn.2 ?_ h.sig_ok h.item_ok h.len_ok h.cap_pos
      · intro p hp
        rcases List.mem_cons.mp hp with h1 | h1
        · subst h1
          refine ⟨hidx, ?_, ?_⟩ <;> simp [updFn_self]
        · have hpi : p.2 ≠ index := by
            intro he
            exact hnotocc (he ▸ List.mem_map_of_mem Prod.snd h1)
          have := h.occ_mem p h1
          simpa [updFn_ne _ _ _ hpi] using this
      · rw [List.map_cons, List.nodup_cons]
        exact ⟨hknot, h.keys_nodup⟩
      · rw [List.map_cons, List.nodup_cons]
        exact ⟨hnotocc, h.idx_nodup⟩
      · intro i hi hm
        rw [List.map_cons]
        by_cases he : i = index
        · subst he; exact List.mem_cons_self _ _
        · rw [updFn_ne _ _ _ he] at hm
          exact List.mem_cons_of_mem _ (h.occ_of_marker i hi hm)
      · intro i hi
        by_cases he : i = index
        · subst he
          rw [updFn_self]
          exact Or.inr rfl
        · rw [updFn_ne _ _ _ he]
          exact h.marker_valid i hi
      · intro i hi
        exact h.free_lt i (hrest i hi)
      · intro i hi
        rw [List.map_cons, List.mem_cons, not_or]
        refine ⟨fun he => hfn.1 ((show i = index from he) ▸ hi), h.free_disj i (hrest i hi)⟩
    · rw [insert_eq_dup hf ha]
      have hrest : ∀ i ∈ rest, i ∈ s.free := by
        intro i hi; rw [hf]; exact List.mem_cons_of_mem _ hi
      have hfn := h.free_nodup
      rw [hf, List.nodup_cons] at hfn
      exact ⟨h.occ_mem, h.keys_nodup, h.idx_nodup, h.occ_of_marker, h.marker_valid,
        fun i hi => h.free_lt i (hrest i hi), hfn.2,
        fun i hi => h.free_disj i (hrest i hi),
        h.sig_ok, h.item_ok, h.len_ok, h.cap_pos⟩

theorem erase_eq_absent {s : Storage K V} {k : K} (ha : alook s.occupied k = none) :
    Storage.erase s k = (s, false) := by
  simp [Storage.erase, ha]

theorem erase_eq_found {s : Storage K V} {k : K} {index : Nat}
    (ha : alook s.occupied k = some index) :
    Storage.erase s k
      = ({ s with
            free := index :: s.free,
            occupied := s.occupied.filter (fun p => decide (p.1 ≠ k)),
            file := { s.file with
                        recordAt := updFn s.file.recordAt index
                          ⟨markerEmpty, (s.file.recordAt index).data⟩ } },
          true) := by
  simp [Storage.erase, ha]

theorem erase_inv {ly : Layout} {kOf : V → K} {s : Storage K V}
    (h : Inv ly kOf s) (k : K) : Inv ly kOf (Storage.erase s k).1 := by
  rcases ha : alook s.occupied k with _ | index
  · rw [erase_eq_absent ha]; exact h
  · rw [erase_eq_found ha]
    have hmem : (k, index) ∈ s.occupied := alook_mem ha
    have hidx : index < s.file.hcap := (h.occ_mem _ hmem).1
    have hsub : ∀ p ∈ s.occupied.filter (fun p => decide (p.1 ≠ k)), p ∈ s.occupied :=
      fun p hp => (List.mem_filter.mp hp).1
    have hkey : ∀ p ∈ s.occupied.filter (fun p => decide (p.1 ≠ k)), p.1 ≠ k :=
      fun p hp => of_decide_eq_true (List.mem_filter.mp hp).2
    have hne_index : ∀ p ∈ s.occupied.filter (fun p => decide (p.1 ≠ k)), p.2 ≠ index := by
      intro p hp he
      have : p = (k, index) :=
        nodup_map_eq_of_mem h.idx_nodup (hsub p hp) hmem he
      exact hkey p hp (congrArg Prod.fst this)
    refine inv_mk ?_ ?_ ?_ ?_ ?_ ?_ ?_ ?_ h.sig_ok h.item_ok h.len_ok h.cap_pos
    · intro p hp
      have h1 := h.occ_mem p (hsub p hp)
      simpa [updFn_ne _ _ _ (hne_index p hp)] using h1
    · exact h.keys_nodup.sublist ((List.filter_sublist _).map Prod.fst)
    · exact h.idx_nodup.sublist ((List.filter_sublist _).map Prod.snd)
    · intro i hi hm
      by_cases he : i = index
      · subst he
        rw [updFn_self] at hm
        exact absurd hm.symm (Ne.symm markerEmpty_ne_occupied)
      · rw [updFn_ne _ _ _ he] at hm
        have h1 := h.occ_of_marker i hi hm
        rcases List.mem_map.mp h1 with ⟨p, hp, hpi⟩
        have hpk : p.1 ≠ k := by
          intro hc
          have : p = (k, index) :=
            nodup_map_eq_of_mem h.keys_nodup hp hmem hc
          exact he (hpi ▸ congrArg Prod.snd this ▸ rfl)
        refine List.mem_map.mpr ⟨p, List.mem_filter.mpr ⟨hp, decide_eq_true hpk⟩, hpi⟩
    · intro i hi
      by_cases he : i = index
      · subst he
        rw [updFn_self]
        exact Or.inl rfl
      · rw [updFn_ne _ _ _ he]
        exact h.marker_valid i hi
    · intro i hi
      rcases List.mem_cons.mp hi with h1 | h1
      · exact h1 ▸ hidx
      · exact h.free_lt i h1
    · rw [List.nodup_cons]
      refine ⟨?_, h.free_nodup⟩
      intro hc
      exact h.free_disj index hc (List.mem_map_of_mem Prod.snd hmem)
    · intro i hi
      rcases List.mem_cons.mp hi with h1 | h1
      · subst h1
        intro hc
        rcases List.mem_map.mp hc with ⟨p, hp, hpi⟩
        exact hne_index p hp hpi
      · intro hc
        rcases List.mem_map.mp hc with ⟨p, hp, hpi⟩
        exact h.free_disj i h1 (hpi ▸ List.mem_map_of_mem Prod.snd (hsub p hp))

theorem applyOp_inv {ly : Layout} {kOf : V → K} {s : Storage K V}
    (h : Inv ly kOf s) (op : StoreOp K V) : Inv ly kOf (applyOp kOf s op) := by
  cases op with
  | ins v => exact insert_inv h v
  | er k => exact erase_inv h k

theorem applyOps_inv {ly : Layout} {kOf : V → K} (ops : List (StoreOp K V)) :
    ∀ {s : Storage K V}, Inv ly kOf s → Inv ly kOf (applyOps kOf ops s) := by
  induction ops with
  | nil => intro s h; exact h
  | cons op rest ih =>
    intro s h
    exact ih (applyOp_inv h op)

theorem inv_mem_occupied_iff {ly : Layout} {kOf : V → K} {s : Storage K V}
    (h : Inv ly kOf s) (k : K) (i : Nat) :
    (k, i) ∈ s.occupied ↔
      i < s.file.hcap ∧ (s.file.recordAt i).marker = markerOccupied ∧
        k = kOf (s.file.recordAt i).data := by
  constructor
  · intro hp
    have := h.occ_mem _ hp
    exact ⟨this.1, this.2.1, this.2.2.symm⟩
  · rintro ⟨hi, hm, hk⟩
    have h1 := h.occ_of_marker i hi hm
    rcases List.mem_map.mp h1 with ⟨p, hp, hpi⟩
    have hpk := (h.occ_mem p hp).2.2
    have : p = (k, i) := by
      obtain ⟨p1, p2⟩ := p
      simp only at hpi
      subst hpi
      simp only at hpk
      rw [hk, hpk]
    exact this ▸ hp

theorem inv_occList_perm {ly : Layout} {kOf : V → K} {s : Storage K V}
    (h : Inv ly kOf s) :
    (occList kOf s.file (List.range s.file.hcap)).Perm s.occupied := by
  have hn1 : (occList kOf s.file (List.range s.file.hcap)).Nodup := by
    refine List.Nodup.of_map Prod.snd ?_
    rw [occList_map_snd]
    exact (List.nodup_range _).filter _
  have hn2 : s.occupied.Nodup := List.Nodup.of_map Prod.snd h.idx_nodup
  refine (List.perm_ext_iff_of_nodup hn1 hn2).mpr ?_
  rintro ⟨k, i⟩
  rw [mem_occList, inv_mem_occupied_iff h, List.mem_range]

theorem inv_occList_keys_nodup {ly : Layout} {kOf : V → K} {s : Storage K V}
    (h : Inv ly kOf s) :
    ((occList kOf s.file (List.range s.file.hcap)).map Prod.fst).Nodup :=
  (((inv_occList_perm h).map Prod.fst).nodup_iff).mpr h.keys_nodup

theorem find_mk (occ : List (K × Nat)) (fr : List Nat) (fc : Nat) (f : File V) (k : K) :
    Storage.find ⟨occ, fr, fc, f⟩ k = (alook occ k).map (fun i => (f.recordAt i).data) := rfl

theorem size_mk (occ : List (K × Nat)) (fr : List Nat) (fc : Nat) (f : File V) :
    Storage.size (⟨occ, fr, fc, f⟩ : Storage K V) = occ.length := rfl

theorem capacity_mk (occ : List (K × Nat)) (fr : List Nat) (fc : Nat) (f : File V) :
    Storage.capacity (⟨occ, fr, fc, f⟩ : Storage K V) = fc := rfl

theorem storeKV_mk (occ : List (K × Nat)) (fr : List Nat) (fc : Nat) (f : File V) :
    storeKV (⟨occ, fr, fc, f⟩ : Storage K V)
      = occ.map (fun p => (p.1, (f.recordAt p.2).data)) := rfl

theorem expandFS_ok (ly : Layout) (kOf : V → K) (f : File V) (newCap : Nat)
    (hb : ly.headerSize + newCap * ly.recordSize ≠ 0)
    (hv : ∀ i, i < f.hcap →
      (f.recordAt i).marker = markerEmpty ∨ (f.recordAt i).marker = markerOccupied)
    (hn : ((occList kOf f (List.range f.hcap)).map Prod.fst).Nodup) :
    ∃ f2 free2,
      expandFS ly kOf f newCap
        = (some f2,
           .ok { occupied := occList kOf f (List.range f.hcap),
                 free := free2, freeCap := newCap, file := f2 })
      ∧ f2.hcap = newCap
      ∧ f2.byteLength = ly.headerSize + newCap * ly.recordSize
      ∧ (∀ j, j < f.hcap → f2.recordAt j = f.recordAt j) := by
  have hsr := scanFrom_range kOf
    { f with byteLength := ly.headerSize + newCap * ly.recordSize } hv hn
  refine ⟨{ f with
        byteLength := ly.headerSize + newCap * ly.recordSize,
        hcap := newCap,
        recordAt := ((List.range' f.hcap (newCap - f.hcap)).foldl
          (fun st i => (updFn st.1 i ⟨markerEmpty, default⟩, i :: st.2))
          (f.recordAt,
            ((List.range f.hcap).filter
              fun i => decide ((f.recordAt i).marker = markerEmpty)).reverse)).1 },
      ((List.range' f.hcap (newCap - f.hcap)).foldl
          (fun st i => (updFn st.1 i ⟨markerEmpty, default⟩, i :: st.2))
          (f.recordAt,
            ((List.range f.hcap).filter
              fun i => decide ((f.recordAt i).marker = markerEmpty)).reverse)).2,
      ?_, rfl, rfl, ?_⟩
  · show expandFS ly kOf f newCap = _
    simp only [expandFS, mappedFileCreate]
    rw [if_neg hb, hsr]
    rfl
  · intro j hj
    have hnot : j ∉ List.range' f.hcap (newCap - f.hcap) := by
      intro hc
      exact absurd (List.mem_range'_1.mp hc).1 (Nat.not_le_of_lt hj)
    exact foldl_updPush_fst _ _ _ _ hnot

theorem storageOpenFS_ok_of_inv {ly : Layout} {kOf : V → K} {s : Storage K V}
    (h : Inv ly kOf s) (hpos : 0 < ly.headerSize + ly.recordSize) (cap : Nat) :
    ∃ s', (storageOpenFS ly kOf (some s.file) cap).2 = .ok s'
      ∧ (storeKV s').Perm (storeKV s) := by
  have hmul : ly.recordSize ≤ s.file.hcap * ly.recordSize :=
    Nat.le_mul_of_pos_left _ h.cap_pos
  have hlen := h.len_ok
  have h0 : s.file.byteLength ≠ 0 := by omega
  have h1 : ¬ s.file.byteLength < ly.headerSize + ly.recordSize := by omega
  have hv := h.marker_valid
  have hn := inv_occList_keys_nodup h
  by_cases h5 : cap > s.file.hcap
  · have hmul2 : s.file.hcap * ly.recordSize ≤ cap * ly.recordSize :=
      Nat.mul_le_mul_right _ (le_of_lt h5)
    have hb : ly.headerSize + cap * ly.recordSize ≠ 0 := by omega
    obtain ⟨f2, free2, heq, hcap2, hbl2, hrec2⟩ := expandFS_ok ly kOf s.file cap hb hv hn
    have hopen : storageOpenFS ly kOf (some s.file) cap = expandFS ly kOf s.file cap := by
      simp only [storageOpenFS]
      rw [if_neg h0, if_neg h1, if_neg (not_not_intro h.sig_ok),
        if_neg (not_not_intro h.len_ok), if_neg (not_not_intro h.item_ok.symm), if_pos h5]
    refine ⟨_, by rw [hopen, heq], ?_⟩
    rw [storeKV_mk]
    have hmapeq : (occList kOf s.file (List.range s.file.hcap)).map
          (fun p => (p.1, (f2.recordAt p.2).data))
        = (occList kOf s.file (List.range s.file.hcap)).map
          (fun p => (p.1, (s.file.recordAt p.2).data)) := by
      refine List.map_congr_left (fun p hp => ?_)
      rw [hrec2 p.2 (occList_lt hp)]
    rw [hmapeq]
    exact (inv_occList_perm h).map _
  · have hsr := scanFrom_range kOf s.file hv hn
    have hopen : storageOpenFS ly kOf (some s.file) cap
        = (some s.file,
           .ok { occupied := occList kOf s.file (List.range s.file.hcap),
                 free := ((List.range s.file.hcap).filter
                   fun i => decide ((s.file.recordAt i).marker = markerEmpty)).reverse,
                 freeCap := s.file.hcap, file := s.file }) := by
      simp only [storageOpenFS]
      rw [if_neg h0, if_neg h1, if_neg (not_not_intro h.sig_ok),
        if_neg (not_not_intro h.len_ok), if_neg (not_not_intro h.item_ok.symm),
        if_neg h5, hsr]
    refine ⟨_, by rw [hopen], ?_⟩
    rw [storeKV_mk]
    exact (inv_occList_perm h).map _

theorem expandFS_fst (ly : Layout) (kOf : V → K) (f : File V) (n : Nat) :
    ∃ f', (expandFS ly kOf f n).1 = some f'
      ∧ f'.byteLength = ly.headerSize + n * ly.recordSize := by
  by_cases hb : ly.headerSize + n * ly.recordSize = 0
  case pos =>
    refine ⟨{ f with byteLength := ly.headerSize + n * ly.recordSize }, ?_, rfl⟩
    simp only [expandFS, mappedFileCreate]
    rw [if_pos hb]
  case neg =>
    rcases scanFrom_cases kOf
        ({ f with byteLength := ly.headerSize + n * ly.recordSize })
        (List.range
          ({ f with byteLength := ly.headerSize + n * ly.recordSize } : File V).hcap)
        ([], []) with ⟨r, hr⟩ | hr
    · refine ⟨{ f with
          byteLength := ly.headerSize + n * ly.recordSize,
          hcap := n,
          recordAt := ((List.range' f.hcap (n - f.hcap)).foldl
            (fun st i => (updFn st.1 i ⟨markerEmpty, default⟩, i :: st.2))
            (f.recordAt, r.2)).1 }, ?_, rfl⟩
      simp only [expandFS, mappedFileCreate]
      rw [if_neg hb, hr]
    · refine ⟨{ f with byteLength := ly.headerSize + n * ly.recordSize }, ?_, rfl⟩
      simp only [expandFS, mappedFileCreate]
      rw [if_neg hb, hr]

theorem storageOpenFS_fst_mono (ly : Layout) (kOf : V → K) (f : File V) (cap : Nat) :
    ∃ f', (storageOpenFS ly kOf (some f) cap).1 = some f'
      ∧ f.byteLength ≤ f'.byteLength := by
  by_cases h0 : f.byteLength = 0
  · refine ⟨f, ?_, le_refl _⟩
    simp only [storageOpenFS]
    rw [if_pos h0]
  by_cases h1 : f.byteLength < ly.headerSize + ly.recordSize
  · refine ⟨f, ?_, le_refl _⟩
    simp only [storageOpenFS]
    rw [if_neg h0, if_pos h1]
  by_cases h2 : f.sig0 = 0xDA ∧ f.sig1 = 0x1A ∧ f.sig2 = 0xF1 ∧ f.sig3 = 0x1E
  case neg =>
    refine ⟨f, ?_, le_refl _⟩
    simp only [storageOpenFS]
    rw [if_neg h0, if_neg h1, if_pos h2]
  by_cases h3 : f.byteLength = ly.headerSize + f.hcap * ly.recordSize
  case neg =>
    refine ⟨f, ?_, le_refl _⟩
    simp only [storageOpenFS]
    rw [if_neg h0, if_neg h1, if_neg (not_not_intro h2), if_pos h3]
  by_cases h4 : ly.itemSize = f.itemSize
  case neg =>
    refine ⟨f, ?_, le_refl _⟩
    simp only [storageOpenFS]
    rw [if_neg h0, if_neg h1, if_neg (not_not_intro h2), if_neg (not_not_intro h3),
      if_pos h4]
  by_cases h5 : cap > f.hcap
  · have hopen : storageOpenFS ly kOf (some f) cap = expandFS ly kOf f cap := by
      simp only [storageOpenFS]
      rw [if_neg h0, if_neg h1, if_neg (not_not_intro h2), if_neg (not_not_intro h3),
        if_neg (not_not_intro h4), if_pos h5]
    obtain ⟨f', hf', hlen'⟩ := expandFS_fst ly kOf f cap
    have hgrow : f.byteLength ≤ ly.headerSize + cap * ly.recordSize := by
      have := Nat.mul_le_mul_right ly.recordSize (le_of_lt h5)
      omega
    exact ⟨f', by rw [hopen, hf'], by rw [hlen']; exact hgrow⟩
  · refine ⟨f, ?_, le_refl _⟩
    simp only [storageOpenFS]
    rw [if_neg h0, if_neg h1, if_neg (not_not_intro h2), if_neg (not_not_intro h3),
      if_neg (not_not_intro h4), if_neg h5]
    rcases scanFrom_cases kOf f (List.range f.hcap) ([], []) with ⟨r, hr⟩ | hr
    · rw [hr]
    · rw [hr]

theorem expandFS_snd_cases (ly : Layout) (kOf : V → K) (f : File V) (n : Nat) :
    (∃ s, (expandFS ly kOf f n).2 = .ok s) ∨
    (expandFS ly kOf f n).2 = .error .osMapFailed ∨
    (expandFS ly kOf f n).2 = .error .fileIsCorrupted := by
  by_cases hb : ly.headerSize + n * ly.recordSize = 0
  · right; left
    simp only [expandFS, mappedFileCreate]
    rw [if_pos hb]
  · rcases scanFrom_cases kOf
        ({ f with byteLength := ly.headerSize + n * ly.recordSize })
        (List.range
          ({ f with byteLength := ly.headerSize + n * ly.recordSize } : File V).hcap)
        ([], []) with ⟨r, hr⟩ | hr
    · left
      refine ⟨⟨r.1,
        ((List.range' f.hcap (n - f.hcap)).foldl
          (fun st i => (updFn st.1 i ⟨markerEmpty, default⟩, i :: st.2))
          (f.recordAt, r.2)).2, n,
        { f with
            byteLength := ly.headerSize + n * ly.recordSize,
            hcap := n,
            recordAt := ((List.range' f.hcap (n - f.hcap)).foldl
              (fun st i => (updFn st.1 i ⟨markerEmpty, default⟩, i :: st.2))
              (f.recordAt, r.2)).1 }⟩, ?_⟩
      simp only [expandFS, mappedFileCreate]
      rw [if_neg hb, hr]
    · right; right
      simp only [expandFS, mappedFileCreate]
      rw [if_neg hb, hr]

theorem clear_foldl_byteLength (l : List (K × Nat)) :
    ∀ s : Storage K V, (l.foldl clearStep s).file.byteLength = s.file.byteLength := by
  induction l with
  | nil => intro s; rfl
  | cons p rest ih =>
    intro s
    rw [List.foldl_cons, ih]
    rfl

end Lemmas

section Claims

variable {K V : Type} [DecidableEq K] [Inhabited V]

/-- C2: against a full store (empty free ring), `map::insert` of a fresh key
does fail with `storage_is_full`, but `size()` grows from 1 to 2: the
`try_emplace(key, 0)` entry stays in the key index after the failure,
contradicting the claim that size is unchanged. -/
theorem c2_insert_full_grows_size :
    ((c2map1.storageB.recordsB 1).next = 1 ∧ alook c2map1.indices 8 = none) ∧
    c2run2.2 = .error .storageIsFull ∧
    c2map1.size = 1 ∧ c2run2.1.size = 2 :=
  ⟨⟨rfl, rfl⟩, rfl, rfl, rfl⟩

/-- C3: `storage::insert` with a duplicate key returns failure and leaves the
records and the key index unchanged, but the free-slot stack shrinks from
one index to none: the popped index is never pushed back, so the allocator's
free count is not unchanged as claimed. -/
theorem c3_duplicate_insert_leaks_free_slot :
    c3run2.2 = false ∧
    c3run2.1.occupied = c3store1.occupied ∧
    c3run2.1.file.recordAt 0 = c3store1.file.recordAt 0 ∧
    c3run2.1.file.recordAt 1 = c3store1.file.recordAt 1 ∧
    c3store1.free.length = 1 ∧ c3run2.1.free.length = 0 :=
  ⟨rfl, rfl, rfl, rfl, rfl, rfl⟩

/-- C4: after a failed duplicate-key `insert` on a capacity-2 store holding
one entry, the key index still has exactly one entry per occupied slot, but
the occupied count plus the allocator's free count no longer equals the
declared capacity: 1 + 0 ≠ 2. -/
theorem c4_occupancy_accounting_broken :
    c4store2.occupied.length = countOccupied c4store2.file ∧
    Storage.capacity c4store2 = 2 ∧
    countOccupied c4store2.file + c4store2.free.length ≠ Storage.capacity c4store2 := by
  refine ⟨rfl, rfl, ?_⟩
  decide

/-- C8: in the Windows branch of `mapped_file::create`, when `CreateFileA`
and `CreateFileMapping` succeed and `MapViewOfFile` fails, the mapping
handle was acquired but is not among the handles released before the error
returns — only the file handle is closed, so an OS resource leaks on this
failure path. -/
theorem c8_mapview_failure_leaks_mapping_handle :
    (mappedFileCreateWin false false true).success = false ∧
    WinRes.mappingHandle ∈ (mappedFileCreateWin false false true).acquired ∧
    WinRes.mappingHandle ∉ (mappedFileCreateWin false false true).released := by
  refine ⟨rfl, ?_, ?_⟩ <;> decide

omit [DecidableEq K] in
/-- C10: `storage::create` with capacity 0 returns the
`file_size_is_too_small` error before any filesystem call: the filesystem is
returned exactly as it was. -/
theorem c10_create_zero_capacity (ly : Layout) (fs : FS V) :
    storageCreateFS (K := K) ly fs 0 = (fs, .error .fileSizeTooSmall) := rfl

/-- C10 instantiated at an empty filesystem (no hypotheses to discharge; this
closed corollary lets the result be checked by evaluation). -/
theorem c10_create_zero_capacity_witness :
    storageCreateFS (K := Nat) layoutA (none : FS Nat) 0
      = (none, .error .fileSizeTooSmall) :=
  c10_create_zero_capacity layoutA none

/-- C7 fails as stated: opening a zero-length file does not return the
`file_size_is_too_small` error — the OS cannot map a zero-length file, so
`mapped_file::create` fails first and `storage::open` propagates that OS
error, which is distinct from `file_size_is_too_small`. -/
theorem c7_zero_length_counterexample :
    (storageOpenFS layoutA (id : Nat → Nat) (some (File.blank Nat 0)) 1).2
      = .error .osMapFailed ∧
    StoreError.osMapFailed ≠ StoreError.fileSizeTooSmall :=
  ⟨rfl, by decide⟩

/-- C7 amended: for every zero-length file, open fails — without crashing —
with the OS mapping error, which never reaches (and is distinct from) the
TooSmall check. -/
theorem c7_zero_length_amended (ly : Layout) (kOf : V → K) (f : File V) (cap : Nat)
    (h : f.byteLength = 0) :
    (storageOpenFS ly kOf (some f) cap).2 = .error .osMapFailed ∧
    StoreError.osMapFailed ≠ StoreError.fileSizeTooSmall := by
  refine ⟨?_, by decide⟩
  simp [storageOpenFS, h]

/-- C7 amended, witnessed on a concrete zero-length file. -/
theorem c7_zero_length_amended_witness :
    (File.blank Nat 0).byteLength = 0 ∧
    ((storageOpenFS layoutA (id : Nat → Nat) (some (File.blank Nat 0)) 2).2
        = .error .osMapFailed ∧
      StoreError.osMapFailed ≠ StoreError.fileSizeTooSmall) :=
  ⟨rfl, c7_zero_length_amended layoutA id (File.blank Nat 0) 2 rfl⟩

/-- C9 fails as stated: `create` opens the path with `fopen("w+b")`, which
truncates whatever file is there.  Creating at capacity 2 and then creating
again at capacity 1 shrinks the backing file from 48 to 32 bytes, so over
sequences containing `create` the length does decrease. -/
theorem c9_create_truncates_counterexample :
    fsLength (storageCreateFS (K := Nat) layoutA (none : FS Nat) 2).1 = some 48 ∧
    fsLength (storageCreateFS (K := Nat) layoutA
        (storageCreateFS (K := Nat) layoutA (none : FS Nat) 2).1 1).1 = some 32 ∧
    (32 : Nat) < 48 := by
  refine ⟨rfl, rfl, ?_⟩
  decide

/-- C1: starting from a freshly created store of any positive capacity, after
any interleaving of `insert` and `erase` the file left behind at close
reopens successfully (at any requested capacity — expanding if it exceeds
the stored one), and the reopened store presents exactly the key-value pairs
the store held at close, as a permutation; the rebuilt state is a function
of the file alone, independently of the in-memory index representation. -/
theorem c1_roundtrip (ly : Layout) (kOf : V → K) {cap : Nat} (hcap : 0 < cap)
    (hpos : 0 < ly.headerSize + ly.recordSize) (ops : List (StoreOp K V)) (openCap : Nat) :
    ∃ s', (storageOpenFS ly kOf
          (some (applyOps kOf ops (storageCreate ly cap)).file) openCap).2 = .ok s'
      ∧ (storeKV s').Perm (storeKV (applyOps kOf ops (storageCreate ly cap))) :=
  storageOpenFS_ok_of_inv (applyOps_inv ops (storageCreate_inv ly kOf hcap)) hpos openCap

/-- C1 witnessed on a concrete interleaving: capacity 2, insert 1, insert 2,
erase 1, close, reopen. -/
theorem c1_roundtrip_witness :
    ((0 : Nat) < 2 ∧ 0 < layoutA.headerSize + layoutA.recordSize) ∧
    (∃ s', (storageOpenFS layoutA (id : Nat → Nat)
          (some (applyOps id [StoreOp.ins 1, StoreOp.ins 2, StoreOp.er 1]
            (storageCreate layoutA 2)).file) 2).2 = .ok s'
      ∧ (storeKV s').Perm (storeKV (applyOps id [StoreOp.ins 1, StoreOp.ins 2, StoreOp.er 1]
          (storageCreate layoutA 2)))) :=
  ⟨⟨by decide, by decide⟩,
    c1_roundtrip layoutA id (by decide) (by decide) [StoreOp.ins 1, StoreOp.ins 2, StoreOp.er 1] 2⟩

/-- C5: opening a valid store file whose stored capacity is below the
requested minimum transparently expands: the call succeeds, `capacity()` is
the requested minimum, `size()` is the number of records occupied before the
expansion, and every entry stored in the file is still findable with its
stored payload. -/
theorem c5_open_expands (ly : Layout) (kOf : V → K) (f : File V) (minCap : Nat)
    (hv : ValidStoreFile ly kOf f) (hlt : f.hcap < minCap) :
    ∃ f' s', storageOpenFS ly kOf (some f) minCap = (some f', .ok s')
      ∧ Storage.capacity s' = minCap
      ∧ Storage.size s' = countOccupied f
      ∧ ∀ i, i < f.hcap → (f.recordAt i).marker = markerOccupied →
          Storage.find s' (kOf (f.recordAt i).data) = some ((f.recordAt i).data) := by
  obtain ⟨hs0, hs1, hs2, hs3, hitem, hlen, hblpos, hcappos, hmk, hnk⟩ := hv
  have hmul2 : f.hcap * ly.recordSize ≤ minCap * ly.recordSize :=
    Nat.mul_le_mul_right _ (le_of_lt hlt)
  have hb : ly.headerSize + minCap * ly.recordSize ≠ 0 := by omega
  obtain ⟨f2, free2, heq, hcap2, hbl2, hrec2⟩ := expandFS_ok ly kOf f minCap hb hmk hnk
  have h0 : f.byteLength ≠ 0 := by omega
  have hmul : ly.recordSize ≤ f.hcap * ly.recordSize :=
    Nat.le_mul_of_pos_left _ hcappos
  have h1 : ¬ f.byteLength < ly.headerSize + ly.recordSize := by omega
  have hopen : storageOpenFS ly kOf (some f) minCap = expandFS ly kOf f minCap := by
    simp only [storageOpenFS]
    rw [if_neg h0, if_neg h1, if_neg (not_not_intro ⟨hs0, hs1, hs2, hs3⟩),
      if_neg (not_not_intro hlen), if_neg (not_not_intro hitem.symm), if_pos hlt]
  refine ⟨f2, ⟨occList kOf f (List.range f.hcap), free2, minCap, f2⟩, ?_, rfl, ?_, ?_⟩
  · rw [hopen, heq]
  · show (occList kOf f (List.range f.hcap)).length = countOccupied f
    exact occList_length kOf f
  · intro i hi hm
    have hpmem : (kOf (f.recordAt i).data, i) ∈ occList kOf f (List.range f.hcap) :=
      mem_occList.mpr ⟨List.mem_range.mpr hi, hm, rfl⟩
    have hal : alook (occList kOf f (List.range f.hcap)) (kOf (f.recordAt i).data) = some i :=
      alook_of_mem_nodup hnk hpmem
    rw [find_mk, hal, Option.map_some']
    rw [hrec2 i hi]

/-- C5 witnessed on a concrete capacity-1 file with one stored entry, opened
with minimum capacity 2. -/
theorem c5_open_expands_witness :
    ValidStoreFile layoutA (id : Nat → Nat) c5File ∧ c5File.hcap < 2 ∧
    (∃ f' s', storageOpenFS layoutA id (some c5File) 2 = (some f', .ok s')
      ∧ Storage.capacity s' = 2
      ∧ Storage.size s' = countOccupied c5File
      ∧ ∀ i, i < c5File.hcap → (c5File.recordAt i).marker = markerOccupied →
          Storage.find s' (id (c5File.recordAt i).data) = some ((c5File.recordAt i).data)) :=
  ⟨by decide, by decide, c5_open_expands layoutA id c5File 2 (by decide) (by decide)⟩

/-- C9 amended: `open` (including a transparent expansion, which only appends
record space) never removes the backing file and never shrinks it, and the
in-place operations `insert`, `insert_or_assign`, `erase` and `clear` leave
the file length untouched; dropping the store only unmaps.  (`create` is
excluded: it truncates whatever file already sits at the path.) -/
theorem c9_no_delete_no_shrink (ly : Layout) (kOf : V → K) :
    (∀ (f : File V) (cap : Nat), ∃ f',
        (storageOpenFS ly kOf (some f) cap).1 = some f'
          ∧ f.byteLength ≤ f'.byteLength) ∧
    (∀ (s : Storage K V) (v : V),
        ((Storage.insert kOf s v).1).file.byteLength = s.file.byteLength) ∧
    (∀ (s : Storage K V) (v : V),
        ((Storage.insertOrAssign kOf s v).1).file.byteLength = s.file.byteLength) ∧
    (∀ (s : Storage K V) (k : K),
        ((Storage.erase s k).1).file.byteLength = s.file.byteLength) ∧
    (∀ (s : Storage K V), (Storage.clear s).file.byteLength = s.file.byteLength) := by
  refine ⟨storageOpenFS_fst_mono ly kOf, ?_, ?_, ?_, ?_⟩
  · intro s v
    rcases hf : s.free with _ | ⟨index, rest⟩
    · rw [insert_eq_full hf]
    · rcases ha : alook s.occupied (kOf v) with _ | j
      · rw [insert_eq_new hf ha]
      · rw [insert_eq_dup hf ha]
  · intro s v
    rcases ha : alook s.occupied (kOf v) with _ | j
    · rcases hf : s.free with _ | ⟨index, rest⟩ <;>
        simp [Storage.insertOrAssign, ha, hf]
    · simp [Storage.insertOrAssign, ha]
  · intro s k
    rcases ha : alook s.occupied k with _ | index
    · rw [erase_eq_absent ha]
    · rw [erase_eq_found ha]
  · intro s
    show (s.occupied.foldl clearStep s).file.byteLength = s.file.byteLength
    exact clear_foldl_byteLength s.occupied s

/-- C9 amended, witnessed: a concrete open of a valid capacity-1 file at
requested capacity 3 keeps the file present and does not shrink it. -/
theorem c9_no_delete_no_shrink_witness :
    ∃ f', (storageOpenFS layoutA (id : Nat → Nat) (some c5File) 3).1 = some f'
      ∧ c5File.byteLength ≤ f'.byteLength :=
  (c9_no_delete_no_shrink layoutA (id : Nat → Nat)).1 c5File 3

/-- C6: `storage::open` rejects a file exactly as the spec lists, the checks
running in order: TooSmall iff the (nonzero, hence mappable) length is below
header + one record; BadSignature iff, the size check passing, the four
signature bytes are not DA 1A F1 1E; SizeMismatch iff, signature matching,
the length is not exactly header + capacity × record; ItemSizeMismatch iff,
sizes matching, the stored item size differs from this build's payload size.
Whenever one of these four rejections is returned, the file at the path is
exactly the one that was there before. -/
theorem c6_open_rejections (ly : Layout) (kOf : V → K) (f : File V) (cap : Nat)
    (hpos : 0 < ly.headerSize + ly.recordSize) :
    ((storageOpenFS ly kOf (some f) cap).2 = .error .fileSizeTooSmall ↔
        0 < f.byteLength ∧ f.byteLength < ly.headerSize + ly.recordSize) ∧
    ((storageOpenFS ly kOf (some f) cap).2 = .error .invalidFileSignature ↔
        ly.headerSize + ly.recordSize ≤ f.byteLength ∧
        ¬(f.sig0 = 0xDA ∧ f.sig1 = 0x1A ∧ f.sig2 = 0xF1 ∧ f.sig3 = 0x1E)) ∧
    ((storageOpenFS ly kOf (some f) cap).2 = .error .mismatchFileSize ↔
        ly.headerSize + ly.recordSize ≤ f.byteLength ∧
        (f.sig0 = 0xDA ∧ f.sig1 = 0x1A ∧ f.sig2 = 0xF1 ∧ f.sig3 = 0x1E) ∧
        f.byteLength ≠ ly.headerSize + f.hcap * ly.recordSize) ∧
    ((storageOpenFS ly kOf (some f) cap).2 = .error .mismatchItemSize ↔
        ly.headerSize + ly.recordSize ≤ f.byteLength ∧
        (f.sig0 = 0xDA ∧ f.sig1 = 0x1A ∧ f.sig2 = 0xF1 ∧ f.sig3 = 0x1E) ∧
        f.byteLength = ly.headerSize + f.hcap * ly.recordSize ∧
        ly.itemSize ≠ f.itemSize) ∧
    (((storageOpenFS ly kOf (some f) cap).2 = .error .fileSizeTooSmall ∨
      (storageOpenFS ly kOf (some f) cap).2 = .error .invalidFileSignature ∨
      (storageOpenFS ly kOf (some f) cap).2 = .error .mismatchFileSize ∨
      (storageOpenFS ly kOf (some f) cap).2 = .error .mismatchItemSize) →
      (storageOpenFS ly kOf (some f) cap).1 = some f) := by
  by_cases h0 : f.byteLength = 0
  · have hres : storageOpenFS ly kOf (some f) cap = (some f, .error .osMapFailed) := by
      simp only [storageOpenFS]
      rw [if_pos h0]
    rw [hres]
    refine ⟨iff_of_false (by simp) ?_, iff_of_false (by simp) ?_,
      iff_of_false (by simp) ?_, iff_of_false (by simp) ?_, ?_⟩
    · rintro ⟨hc, _⟩; omega
    · rintro ⟨hc, _⟩; omega
    · rintro ⟨hc, _⟩; omega
    · rintro ⟨hc, _⟩; omega
    · rintro (hc | hc | hc | hc) <;> simp at hc
  by_cases h1 : f.byteLength < ly.headerSize + ly.recordSize
  · have hres : storageOpenFS ly kOf (some f) cap = (some f, .error .fileSizeTooSmall) := by
      simp only [storageOpenFS]
      rw [if_neg h0, if_pos h1]
    rw [hres]
    refine ⟨iff_of_true rfl ⟨by omega, h1⟩, iff_of_false (by simp) ?_,
      iff_of_false (by simp) ?_, iff_of_false (by simp) ?_, fun _ => rfl⟩
    · rintro ⟨hc, _⟩; omega
    · rintro ⟨hc, _⟩; omega
    · rintro ⟨hc, _⟩; omega
  by_cases h2 : f.sig0 = 0xDA ∧ f.sig1 = 0x1A ∧ f.sig2 = 0xF1 ∧ f.sig3 = 0x1E
  case neg =>
    have hres : storageOpenFS ly kOf (some f) cap
        = (some f, .error .invalidFileSignature) := by
      simp only [storageOpenFS]
      rw [if_neg h0, if_neg h1, if_pos h2]
    rw [hres]
    refine ⟨iff_of_false (by simp) ?_, iff_of_true rfl ⟨Nat.le_of_not_lt h1, h2⟩,
      iff_of_false (by simp) ?_, iff_of_false (by simp) ?_, fun _ => rfl⟩
    · rintro ⟨_, hc⟩; exact h1 hc
    · rintro ⟨_, hc, _⟩; exact h2 hc
    · rintro ⟨_, hc, _, _⟩; exact h2 hc
  by_cases h3 : f.byteLength = ly.headerSize + f.hcap * ly.recordSize
  case neg =>
    have hres : storageOpenFS ly kOf (some f) cap
        = (some f, .error .mismatchFileSize) := by
      simp only [storageOpenFS]
      rw [if_neg h0, if_neg h1, if_neg (not_not_intro h2), if_pos h3]
    rw [hres]
    refine ⟨iff_of_false (by simp) ?_, iff_of_false (by simp) ?_,
      iff_of_true rfl ⟨Nat.le_of_not_lt h1, h2, h3⟩, iff_of_false (by simp) ?_,
      fun _ => rfl⟩
    · rintro ⟨_, hc⟩; exact h1 hc
    · rintro ⟨_, hc⟩; exact hc h2
    · rintro ⟨_, _, hc, _⟩; exact h3 hc
  by_cases h4 : ly.itemSize = f.itemSize
  case neg =>
    have hres : storageOpenFS ly kOf (some f) cap
        = (some f, .error .mismatchItemSize) := by
      simp only [storageOpenFS]
      rw [if_neg h0, if_neg h1, if_neg (not_not_intro h2), if_neg (not_not_intro h3),
        if_pos h4]
    rw [hres]
    refine ⟨iff_of_false (by simp) ?_, iff_of_false (by simp) ?_,
      iff_of_false (by simp) ?_, iff_of_true rfl ⟨Nat.le_of_not_lt h1, h2, h3, h4⟩,
      fun _ => rfl⟩
    · rintro ⟨_, hc⟩; exact h1 hc
    · rintro ⟨_, hc⟩; exact hc h2
    · rintro ⟨_, _, hc⟩; exact hc h3
  by_cases h5 : cap > f.hcap
  · have hopen : storageOpenFS ly kOf (some f) cap = expandFS ly kOf f cap := by
      simp only [storageOpenFS]
      rw [if_neg h0, if_neg h1, if_neg (not_not_intro h2), if_neg (not_not_intro h3),
        if_neg (not_not_intro h4), if_pos h5]
    have hne : ∀ e : StoreError, e ≠ .osMapFailed → e ≠ .fileIsCorrupted →
        (expandFS ly kOf f cap).2 ≠ .error e := by
      intro e he1 he2 hc
      rcases expandFS_snd_cases ly kOf f cap with ⟨s', hs'⟩ | hs' | hs'
      · rw [hs'] at hc; exact absurd hc (by simp)
      · rw [hs'] at hc
        injection hc with h'
        exact he1 h'.symm
      · rw [hs'] at hc
        injection hc with h'
        exact he2 h'.symm
    rw [hopen]
    refine ⟨iff_of_false (hne _ (by decide) (by decide)) ?_,
      iff_of_false (hne _ (by decide) (by decide)) ?_,
      iff_of_false (hne _ (by decide) (by decide)) ?_,
      iff_of_false (hne _ (by decide) (by decide)) ?_, ?_⟩
    · rintro ⟨_, hc⟩; exact h1 hc
    · rintro ⟨_, hc⟩; exact hc h2
    · rintro ⟨_, _, hc⟩; exact hc h3
    · rintro ⟨_, _, _, hc⟩; exact hc h4
    · rintro (hc | hc | hc | hc) <;>
        exact absurd hc (hne _ (by decide) (by decide))
  · rcases scanFrom_cases kOf f (List.range f.hcap) ([], []) with ⟨r, hr⟩ | hr
    · have hres : storageOpenFS ly kOf (some f) cap
          = (some f, .ok ⟨r.1, r.2, f.hcap, f⟩) := by
        simp only [storageOpenFS]
        rw [if_neg h0, if_neg h1, if_neg (not_not_intro h2), if_neg (not_not_intro h3),
          if_neg (not_not_intro h4), if_neg h5, hr]
      rw [hres]
      refine ⟨iff_of_false (by simp) ?_, iff_of_false (by simp) ?_,
        iff_of_false (by simp) ?_, iff_of_false (by simp) ?_, fun _ => rfl⟩
      · rintro ⟨_, hc⟩; exact h1 hc
      · rintro ⟨_, hc⟩; exact hc h2
      · rintro ⟨_, _, hc⟩; exact hc h3
      · rintro ⟨_, _, _, hc⟩; exact hc h4
    · have hres : storageOpenFS ly kOf (some f) cap
          = (some f, .error .fileIsCorrupted) := by
        simp only [storageOpenFS]
        rw [if_neg h0, if_neg h1, if_neg (not_not_intro h2), if_neg (not_not_intro h3),
          if_neg (not_not_intro h4), if_neg h5, hr]
      rw [hres]
      refine ⟨iff_of_false (by simp) ?_, iff_of_false (by simp) ?_,
        iff_of_false (by simp) ?_, iff_of_false (by simp) ?_, fun _ => rfl⟩
      · rintro ⟨_, hc⟩; exact h1 hc
      · rintro ⟨_, hc⟩; exact hc h2
      · rintro ⟨_, _, hc⟩; exact hc h3
      · rintro ⟨_, _, _, hc⟩; exact hc h4

/-- C6 witnessed on a concrete foreign file: a 5-byte zero-filled file under
the concrete layout is rejected as TooSmall, and the other rejection
characterizations instantiate alongside. -/
theorem c6_open_rejections_witness :
    (0 < layoutA.headerSize + layoutA.recordSize) ∧
    (((storageOpenFS layoutA (id : Nat → Nat) (some (File.blank Nat 5)) 1).2
        = .error .fileSizeTooSmall ↔
        0 < (File.blank Nat 5).byteLength ∧
        (File.blank Nat 5).byteLength < layoutA.headerSize + layoutA.recordSize) ∧
    ((storageOpenFS layoutA (id : Nat → Nat) (some (File.blank Nat 5)) 1).2
        = .error .invalidFileSignature ↔
        layoutA.headerSize + layoutA.recordSize ≤ (File.blank Nat 5).byteLength ∧
        ¬((File.blank Nat 5).sig0 = 0xDA ∧ (File.blank Nat 5).sig1 = 0x1A ∧
          (File.blank Nat 5).sig2 = 0xF1 ∧ (File.blank Nat 5).sig3 = 0x1E)) ∧
    ((storageOpenFS layoutA (id : Nat → Nat) (some (File.blank Nat 5)) 1).2
        = .error .mismatchFileSize ↔
        layoutA.headerSize + layoutA.recordSize ≤ (File.blank Nat 5).byteLength ∧
        ((File.blank Nat 5).sig0 = 0xDA ∧ (File.blank Nat 5).sig1 = 0x1A ∧
          (File.blank Nat 5).sig2 = 0xF1 ∧ (File.blank Nat 5).sig3 = 0x1E) ∧
        (File.blank Nat 5).byteLength
          ≠ layoutA.headerSize + (File.blank Nat 5).hcap * layoutA.recordSize) ∧
    ((storageOpenFS layoutA (id : Nat → Nat) (some (File.blank Nat 5)) 1).2
        = .error .mismatchItemSize ↔
        layoutA.headerSize + layoutA.recordSize ≤ (File.blank Nat 5).byteLength ∧
        ((File.blank Nat 5).sig0 = 0xDA ∧ (File.blank Nat 5).sig1 = 0x1A ∧
          (File.blank Nat 5).sig2 = 0xF1 ∧ (File.blank Nat 5).sig3 = 0x1E) ∧
        (File.blank Nat 5).byteLength
          = layoutA.headerSize + (File.blank Nat 5).hcap * layoutA.recordSize ∧
        layoutA.itemSize ≠ (File.blank Nat 5).itemSize) ∧
    (((storageOpenFS layoutA (id : Nat → Nat) (some (File.blank Nat 5)) 1).2
        = .error .fileSizeTooSmall ∨
      (storageOpenFS layoutA (id : Nat → Nat) (some (File.blank Nat 5)) 1).2
        = .error .invalidFileSignature ∨
      (storageOpenFS layoutA (id : Nat → Nat) (some (File.blank Nat 5)) 1).2
        = .error .mismatchFileSize ∨
      (storageOpenFS layoutA (id : Nat → Nat) (some (File.blank Nat 5)) 1).2
        = .error .mismatchItemSize) →
      (storageOpenFS layoutA (id : Nat → Nat) (some (File.blank Nat 5)) 1).1
        = some (File.blank Nat 5))) :=
  ⟨by decide, c6_open_rejections layoutA id (File.blank Nat 5) 1 (by decide)⟩

end Claims

end Persia
